import Mathlib

/-!
Shallow embedding of the asset-resolution subsystem of `src/util/asset.cpp`
(classes `AssetSystem::Data`, `DirectorySource`, `ZipSource`, the nested
stream buffers `CatStream::StreamBuffer` and `DeflateStream::StreamBuffer`),
together with theorems settling the specification claims about it.

Bytes are modelled as `Nat` values, byte streams as `List Nat`, and machine
integers as `Nat`/`Int` (all the 16/32-bit fields are assembled from bytes,
so no overflow can occur below 2^32 and no explicit modulus is needed).
C++ `std::istream` state (position, failbit, eofbit) is modelled explicitly
because the parsing code depends on it.
-/

/-- The `FatalError` enumeration from `src/util/util.hpp`; thrown values are
the only error information that reaches a caller. -/
inductive FatalError where
  | Decode
  | Encode
  | Initialize
  | ResourceLimit
  | Platform
deriving DecidableEq, Repr

/-- Little-endian value of a byte list: `leVal [b0, b1] = b0 + 256 * b1`. -/
def leVal (bytes : List Nat) : Nat :=
  bytes.foldr (fun b acc => b + 256 * acc) 0

/-- The 16-bit little-endian field stored at byte offset `off` of `data`
(as read by `ZipSource::read(uint16_t&)` on an in-range offset). -/
def readLE16 (data : List Nat) (off : Nat) : Nat :=
  leVal ((data.drop off).take 2)

/-- The 32-bit little-endian field stored at byte offset `off` of `data`
(as read by `ZipSource::read(uint32_t&)` on an in-range offset). -/
def readLE32 (data : List Nat) (off : Nat) : Nat :=
  leVal ((data.drop off).take 4)

/-- State of a C++ `std::istream` over an in-memory byte sequence: the
backing bytes, the get position, and the `failbit`/`eofbit` flags that the
parsing code in `asset.cpp` depends on. -/
structure IStream where
  data : List Nat
  pos : Nat
  fail : Bool
  eofbit : Bool
deriving DecidableEq, Repr

/-- A freshly opened stream: position 0, no error flags. -/
def IStream.ofData (d : List Nat) : IStream :=
  { data := d, pos := 0, fail := false, eofbit := false }

/-- Model of `is.seekg(off, std::ios::beg)`: `eofbit` is cleared first; if
`failbit` is set the sentry fails and nothing else happens; a negative
absolute offset is rejected by the file buffer (sets `failbit`); otherwise
the position is set (seeking past end-of-file is permitted). -/
def IStream.seekgBeg (s : IStream) (off : Int) : IStream :=
  if s.fail then { s with eofbit := false }
  else if off < 0 then { s with eofbit := false, fail := true }
  else { s with eofbit := false, pos := off.toNat }

/-- Model of `is.seekg(0, std::ios::end)`. -/
def IStream.seekgEnd0 (s : IStream) : IStream :=
  if s.fail then { s with eofbit := false }
  else { s with eofbit := false, pos := s.data.length }

/-- Model of `is.tellg()`: `-1` when the stream is in a failed state. -/
def IStream.tellg (s : IStream) : Int :=
  if s.fail then -1 else s.pos

/-- Model of `is.read(buf, count)`: returns the extracted bytes (`gcount`
many) and the new stream state.  If the sentry fails nothing is extracted;
if fewer than `count` bytes are available, `eofbit` and `failbit` are set
and only the available bytes are extracted. -/
def IStream.readBytes (s : IStream) (count : Nat) : List Nat × IStream :=
  if s.fail then ([], s)
  else
    let avail := s.data.length - s.pos
    let got := min count avail
    let bytes := (s.data.drop s.pos).take got
    if got < count then
      (bytes, { s with pos := s.pos + got, eofbit := true, fail := true })
    else
      (bytes, { s with pos := s.pos + got })

/-- Model of `ZipSource::read(uint16_t&, is)`: reads 2 bytes and byte-swaps
from little endian.  On a short read the C++ value is indeterminate; the
model uses the little-endian value of the bytes actually extracted. -/
def IStream.read16 (s : IStream) : Nat × IStream :=
  let r := s.readBytes 2
  (leVal r.1, r.2)

/-- Model of `ZipSource::read(uint32_t&, is)`: reads 4 bytes, little endian. -/
def IStream.read32 (s : IStream) : Nat × IStream :=
  let r := s.readBytes 4
  (leVal r.1, r.2)

/-! ## CatStream (BoundedStream): `CatStream::StreamBuffer` -/

/-- State of `CatStream::StreamBuffer`: the window bounds and current
underlying offset (`pos_type` fields, hence `Int`), plus the current get
area (the unread part of `m_storage` exposed through `setg`). -/
structure CatStreamBuffer where
  m_off_beg : Int
  m_off_end : Int
  m_off_pos : Int
  buffer : List Nat
deriving DecidableEq, Repr

/-- The buffer as constructed: `m_off_pos := beg`, empty get area. -/
def CatStreamBuffer.init (beg fin : Int) : CatStreamBuffer :=
  { m_off_beg := beg, m_off_end := fin, m_off_pos := beg, buffer := [] }

/-- Result of one `underflow` call: the new buffer state, the returned
character (`none` = `traits_type::eof()`), and the half-open range
`[readLo, readHi)` of underlying-stream offsets that were read. -/
structure UnderflowResult where
  buf : CatStreamBuffer
  ret : Option Nat
  readLo : Int
  readHi : Int
deriving DecidableEq, Repr

/-- Model of `CatStream::StreamBuffer::underflow` over an underlying stream
holding `data` (re-seeked before every read, so only its bytes matter).
If the window is exhausted the get area is cleared and eof is returned;
otherwise `min(m_off_end - m_off_pos, 4096)` bytes are requested starting
at `m_off_pos`.  A request at a negative or past-the-end offset extracts
nothing (eof); a short extraction leaves the underlying stream failed so
`tellg` yields `-1`, which is stored into `m_off_pos`. -/
def CatStreamBuffer.underflow (data : List Nat) (b : CatStreamBuffer) :
    UnderflowResult :=
  if b.m_off_end ≤ b.m_off_pos then
    ⟨{ b with buffer := [] }, none, b.m_off_pos, b.m_off_pos⟩
  else if b.m_off_pos < 0 then
    -- seekg on the underlying stream fails, so the read extracts nothing
    ⟨{ b with buffer := [] }, none, b.m_off_pos, b.m_off_pos⟩
  else
    let pos := b.m_off_pos.toNat
    let want := min (b.m_off_end - b.m_off_pos).toNat 4096
    let got := min want (data.length - pos)
    if got = 0 then
      ⟨{ b with buffer := [] }, none, b.m_off_pos, b.m_off_pos⟩
    else
      let bytes := (data.drop pos).take got
      let newPos : Int := if got < want then -1 else ((pos + got : Nat) : Int)
      ⟨{ b with buffer := bytes, m_off_pos := newPos }, some (bytes.headD 0),
        (pos : Int), ((pos + got : Nat) : Int)⟩

/-- The three `std::ios_base::seekdir` values. -/
inductive SeekDir where
  | beg
  | cur
  | fin
deriving DecidableEq, Repr

/-- Model of `CatStream::StreamBuffer::seekpos`: the requested position is
translated by `m_off_beg` and validated only against the upper bound
`m_off_end`; on success the get area is discarded, `m_off_pos` is updated
and `pos` itself is returned, else `-1` is returned with no state change. -/
def CatStreamBuffer.seekpos (b : CatStreamBuffer) (pos : Int) :
    CatStreamBuffer × Int :=
  let off := pos + b.m_off_beg
  if off ≤ b.m_off_end then
    ({ b with buffer := [], m_off_pos := off }, pos)
  else
    (b, -1)

/-- Model of `CatStream::StreamBuffer::seekoff`: `cur` and `fin` targets are
validated against both window bounds and return the new relative position;
any other direction is delegated to `seekpos`. -/
def CatStreamBuffer.seekoff (b : CatStreamBuffer) (off : Int) (dir : SeekDir) :
    CatStreamBuffer × Int :=
  match dir with
  | .cur =>
    let req := off + b.m_off_pos
    if b.m_off_beg ≤ req ∧ req ≤ b.m_off_end then
      ({ b with buffer := [], m_off_pos := req }, req - b.m_off_beg)
    else
      (b, -1)
  | .fin =>
    let req := off + b.m_off_end
    if b.m_off_beg ≤ req ∧ req ≤ b.m_off_end then
      ({ b with buffer := [], m_off_pos := req }, req - b.m_off_beg)
    else
      (b, -1)
  | .beg => b.seekpos off

/-- One character extraction (`sbumpc`) through the stream buffer: serve
from the get area if it is nonempty, otherwise call `underflow` and consume
the first buffered byte.  Also reports the underlying read range. -/
def CatStreamBuffer.read1 (data : List Nat) (b : CatStreamBuffer) :
    CatStreamBuffer × Option Nat × (Int × Int) :=
  match b.buffer with
  | c :: rest => ({ b with buffer := rest }, some c, (b.m_off_pos, b.m_off_pos))
  | [] =>
    let r := b.underflow data
    match r.ret with
    | none => (r.buf, none, (r.readLo, r.readHi))
    | some c => ({ r.buf with buffer := r.buf.buffer.tail }, some c,
                 (r.readLo, r.readHi))

/-- The operations a caller can drive a `CatStream` with: extract one byte,
or seek relative to start, current position, or end. -/
inductive CatOp where
  | read1
  | seek (off : Int) (dir : SeekDir)
deriving DecidableEq, Repr

/-- Run a sequence of operations, collecting every underlying read range
(only nonempty ones) and every byte returned to the caller. -/
def CatStreamBuffer.run (data : List Nat) (b : CatStreamBuffer) :
    List CatOp → CatStreamBuffer × List (Int × Int) × List Nat
  | [] => (b, [], [])
  | op :: ops =>
    match op with
    | .read1 =>
      let r := b.read1 data
      let rest := CatStreamBuffer.run data r.1 ops
      let ranges := if r.2.2.1 < r.2.2.2 then r.2.2 :: rest.2.1 else rest.2.1
      let outs := match r.2.1 with
        | some c => c :: rest.2.2
        | none => rest.2.2
      (rest.1, ranges, outs)
    | .seek off dir =>
      let r := b.seekoff off dir
      let rest := CatStreamBuffer.run data r.1 ops
      (rest.1, rest.2.1, rest.2.2)

/-! ## DeflateStream (InflateStream): `DeflateStream::StreamBuffer` -/

/-- State of `DeflateStream::StreamBuffer`, minus the zlib engine (kept
abstract): window bounds, underlying offset, and the get area exposed with
`setg` (the code only ever calls `setg(nullptr, nullptr, nullptr)`, so the
get area can only ever be empty). -/
structure DeflateStreamBuffer where
  m_off_beg : Int
  m_off_end : Int
  m_off_pos : Int
  getArea : List Nat
deriving DecidableEq, Repr

/-- The buffer as constructed: `m_off_pos := beg`, empty get area. -/
def DeflateStreamBuffer.init (beg fin : Int) : DeflateStreamBuffer :=
  { m_off_beg := beg, m_off_end := fin, m_off_pos := beg, getArea := [] }

/-- How one `underflow` call of `DeflateStream::StreamBuffer` returns:
either `traits_type::eof()` on one of the two exhaustion paths, or — on the
path that reads compressed bytes and calls `inflate` — control flows off
the end of the non-void function with no `return` statement and without
`setg` ever publishing the inflated bytes (the body ends at a `//TODO`). -/
inductive DeflateUnderflowRet where
  | eofReturn
  | fellOffEnd
deriving DecidableEq, Repr

/-- Model of `DeflateStream::StreamBuffer::underflow`, parameterised by an
arbitrary model `inflateStep` of one `inflate(&m_zlib, Z_NO_FLUSH)` call
(engine state in, compressed chunk in; engine state out, decompressed
bytes written to `m_storage` out).  Returns the new buffer state, the new
engine state, and how the function returned.  Note that on the inflating
path the get area is left untouched (no `setg`) and the decompressed
output is discarded. -/
def DeflateStreamBuffer.underflow {Z : Type} (data : List Nat)
    (inflateStep : Z → List Nat → Z × List Nat) (eng : Z)
    (b : DeflateStreamBuffer) :
    DeflateStreamBuffer × Z × DeflateUnderflowRet × (Int × Int) :=
  if b.m_off_end ≤ b.m_off_pos then
    ({ b with getArea := [] }, eng, .eofReturn, (b.m_off_pos, b.m_off_pos))
  else if b.m_off_pos < 0 then
    ({ b with getArea := [] }, eng, .eofReturn, (b.m_off_pos, b.m_off_pos))
  else
    let pos := b.m_off_pos.toNat
    let want := min (b.m_off_end - b.m_off_pos).toNat 4096
    let got := min want (data.length - pos)
    if got = 0 then
      ({ b with getArea := [] }, eng, .eofReturn, (b.m_off_pos, b.m_off_pos))
    else
      let chunk := (data.drop pos).take got
      let newPos : Int := if got < want then -1 else ((pos + got : Nat) : Int)
      let stepped := inflateStep eng chunk
      -- the int status of inflate is computed and then ignored; no setg, no
      -- return statement: the get area stays as it was
      ({ b with m_off_pos := newPos }, stepped.1, .fellOffEnd,
        ((pos : Int), ((pos + got : Nat) : Int)))

/-- Iterate `underflow` a given number of times (the only way the window
advances, since `DeflateStream::StreamBuffer` overrides no seek functions),
collecting the nonempty underlying read ranges. -/
def DeflateStreamBuffer.runReads {Z : Type} (data : List Nat)
    (inflateStep : Z → List Nat → Z × List Nat) :
    Nat → Z → DeflateStreamBuffer → DeflateStreamBuffer × Z × List (Int × Int)
  | 0, eng, b => (b, eng, [])
  | n + 1, eng, b =>
    let r := b.underflow data inflateStep eng
    let rest := DeflateStreamBuffer.runReads data inflateStep n r.2.1 r.1
    let ranges := if r.2.2.2.1 < r.2.2.2.2 then r.2.2.2 :: rest.2.2 else rest.2.2
    (rest.1, rest.2.1, ranges)

/-! ## ZipSource -/

/-- What `ZipSource::open` hands back on success: a `CatStream` (stored
entries) or a `DeflateStream` (deflate entries), each scoped to a window
`[beg, fin)` of the archive stream. -/
inductive ZipStream where
  | cat (beg fin : Int)
  | deflate (beg fin : Int)
deriving DecidableEq, Repr

/-- The three ways a single source answers `open(key)` in `asset.cpp`:
return `nullptr` (name not in this source), throw a `FatalError`, or return
a stream. -/
inductive OpenResult (α : Type) where
  | miss
  | fatal (e : FatalError)
  | stream (s : α)
deriving DecidableEq, Repr

/-- Model of the `m_index` lookup (`std::unordered_map::find`); the emplace
discipline keeps keys unique, so the first match is the only match. -/
def lookupIdx (idx : List (List Nat × Nat)) (key : List Nat) : Option Nat :=
  (idx.find? (fun e => e.1 = key)).map (fun e => e.2)

/-- Model of `std::unordered_map::emplace` as used in `ZipSource::init`: if
the key is already present the emplace fails and the map keeps the OLD
value; otherwise the pair is added. -/
def emplaceIdx (idx : List (List Nat × Nat)) (name : List Nat) (off : Nat) :
    List (List Nat × Nat) :=
  if (idx.find? (fun e => e.1 = name)).isSome then idx
  else idx ++ [(name, off)]

/-- Model of `ZipSource::open` (named `openEntry` because `open` is a Lean
keyword).  `data` is the archive stream content, modelled from a good
(non-failed) state, as every seek in this function is absolute.  The code
reads the compression method at `base + 8`, the field at `base + 22`
(declared `decode_size; // uncompressed` in the source) and the name/extra
lengths at `base + 26` / `base + 28`, then serves the window
`[base + 30 + n + m, base + 30 + n + m + decode_size)`. -/
def ZipSource.openEntry (data : List Nat) (idx : List (List Nat × Nat))
    (key : List Nat) : OpenResult ZipStream :=
  match lookupIdx idx key with
  | none => .miss
  | some base =>
    let s0 := IStream.ofData data
    let s1 := s0.seekgBeg ((base : Int) + 8)
    let r1 := s1.read16
    let compression := r1.1
    let s2 := r1.2.seekgBeg ((base : Int) + 22)
    let r2 := s2.read32
    let decode_size := r2.1
    let s3 := r2.2.seekgBeg ((base : Int) + 26)
    let r3 := s3.read16
    let n := r3.1
    let r4 := r3.2.read16
    let m := r4.1
    let strt : Int := (base : Int) + 30 + n + m
    if compression = 0 then .stream (.cat strt (strt + decode_size))
    else if compression = 8 then .stream (.deflate strt (strt + decode_size))
    else .fatal .Decode

/-- Whether the 4 bytes at offset `j` of `data` are the EOCD signature
`50 4B 05 06` (the `memcmp` in `seek_end_of_central_directory`; out-of-range
bytes default to 0 and can never match, as every signature byte is nonzero). -/
def sigAt (data : List Nat) (j : Nat) : Bool :=
  data.getD j 0 == 0x50 && data.getD (j + 1) 0 == 0x4b &&
    data.getD (j + 2) 0 == 0x05 && data.getD (j + 3) 0 == 0x06

/-- The inner loop of `seek_end_of_central_directory`: try window offsets
`j, j - 1, ..., 0` and return the absolute offset of the first (that is,
rightmost) signature match. -/
def scanBack (data : List Nat) (getpos : Nat) : Nat → Option Nat
  | 0 => if sigAt data getpos then some getpos else none
  | j + 1 =>
    if sigAt data (getpos + j + 1) then some (getpos + j + 1)
    else scanBack data getpos j

/-- The outer loop of `seek_end_of_central_directory`: up to 64 backward
windows of 1024 bytes.  `getpos` is clamped to 0 (in the source a negative
intermediate value wraps through unsigned arithmetic and is restored by
`std::max<std::streamoff>(getpos, 0)` on the usual twos-complement
platforms, which the model mirrors); the window read extracts
`gcount = min(1024, size - getpos)` bytes, and the scan runs from
`gcount - 4` when at least 4 bytes were extracted. -/
def eocdLoop (data : List Nat) : Nat → Int → Option Nat
  | 0, _ => none
  | fuel + 1, getpos0 =>
    let getpos := (max getpos0 0).toNat
    let gcount := min 1024 (data.length - getpos)
    match (if 4 ≤ gcount then scanBack data getpos (gcount - 4) else none) with
    | some k => some k
    | none =>
      if getpos ≠ 0 then eocdLoop data fuel ((getpos : Int) - 1024)
      else none

/-- Model of `ZipSource::seek_end_of_central_directory`: returns the stream
offset the function leaves the file positioned at (the located signature),
or `none` for the throwing path (`FatalError::Decode`). -/
def ZipSource.seek_eocd (data : List Nat) : Option Nat :=
  eocdLoop data 64 ((data.length : Int) - 1024)

/-- One iteration of the central-directory loop in `ZipSource::init`,
threading the real stream state (so that short reads and the resulting
failbit behave as in the source): read the three variable-length sizes at
`base + 28`, the local-header offset at `base + 42`, then the name
(`std::string name(n, 0)` keeps a 0 for every byte the read does not
reach), emplace, and advance `base` by `46 + n + m + k`. -/
def cdirLoop : Nat → IStream → Int → List (List Nat × Nat) →
    List (List Nat × Nat) × IStream
  | 0, s, _, idx => (idx, s)
  | c + 1, s, base, idx =>
    let s1 := s.seekgBeg (base + 28)
    let r1 := s1.read16
    let n := r1.1
    let r2 := r1.2.read16
    let m := r2.1
    let r3 := r2.2.read16
    let k := r3.1
    let s2 := r3.2.seekgBeg (base + 42)
    let r4 := s2.read32
    let off := r4.1
    let r5 := r4.2.readBytes n
    let name := r5.1 ++ List.replicate (n - r5.1.length) 0
    cdirLoop c r5.2 (base + 46 + n + m + k) (emplaceIdx idx name off)

/-- Model of `ZipSource::init` on an archive stream holding `data`: locate
the EOCD (throwing `FatalError::Decode` when the bounded scan fails), read
the record count at `eocd + 8` and the central-directory offset at
`eocd + 16`, then run the record loop.  No read in this function is ever
checked, so after a successful EOCD scan the function always returns an
index. -/
def ZipSource.init (data : List Nat) :
    Except FatalError (List (List Nat × Nat)) :=
  match ZipSource.seek_eocd data with
  | none => .error .Decode
  | some eocd =>
    let s0 : IStream := { data := data, pos := eocd, fail := false,
                          eofbit := false }
    let base : Int := eocd
    let s1 := s0.seekgBeg (base + 8)
    let r1 := s1.read16
    let num_records := r1.1
    let s2 := r1.2.seekgBeg (base + 16)
    let r2 := s2.read32
    let off_records := r2.1
    .ok (cdirLoop num_records r2.2 (off_records : Int) []).1

/-- The sequence of `(name, local-header offset)` pairs the central
directory describes, in iteration order of the parser loop (the same reads
as `cdirLoop`, collecting instead of emplacing). -/
def cdirRecords : Nat → IStream → Int → List (List Nat × Nat)
  | 0, _, _ => []
  | c + 1, s, base =>
    let s1 := s.seekgBeg (base + 28)
    let r1 := s1.read16
    let n := r1.1
    let r2 := r1.2.read16
    let m := r2.1
    let r3 := r2.2.read16
    let k := r3.1
    let s2 := r3.2.seekgBeg (base + 42)
    let r4 := s2.read32
    let off := r4.1
    let r5 := r4.2.readBytes n
    let name := r5.1 ++ List.replicate (n - r5.1.length) 0
    (name, off) :: cdirRecords c r5.2 (base + 46 + n + m + k)

/-! ## DirectorySource and the search path (`AssetSystem::Data`) -/

/-- State of `DirectorySource`: the single member `std::string m_path`. -/
structure DirectorySource where
  m_path : String
deriving DecidableEq, Repr

/-- Model of the `DirectorySource` constructor; `isDirectory` abstracts
`SDL_GetPathInfo` reporting an existing directory.  The constructor
validates `path` and throws `FatalError::Decode` on failure, but never
assigns the `m_path` member, which keeps its default-constructed empty
value. -/
def DirectorySource.construct (isDirectory : String → Bool) (path : String) :
    Except FatalError DirectorySource :=
  if isDirectory path then .ok { m_path := "" }
  else .error .Decode

/-- Model of `DirectorySource::open`; `fs` abstracts the filesystem (full
path to file bytes).  The full path is `m_path + "/" + key` via `snprintf`
into a 1024-byte buffer; a truncated path is a miss (warning logged), and
a file that cannot be opened is a miss (`nullptr`). -/
def DirectorySource.openEntry (fs : String → Option (List Nat))
    (d : DirectorySource) (key : String) : Option (List Nat) :=
  let path := d.m_path ++ "/" ++ key
  if 1024 ≤ path.length then none
  else fs path

/-- Model of `std::multimap<unsigned, AnySource>::emplace`: insert the new
pair after every pair whose priority is less than or equal (the hint-free
emplace inserts at the upper bound of the equal range, so equal priorities
keep insertion order). -/
def addSource {σ : Type} : List (Nat × σ) → Nat → σ → List (Nat × σ)
  | [], p, s => [(p, s)]
  | (q, t) :: rest, p, s =>
    if q ≤ p then (q, t) :: addSource rest p s
    else (p, s) :: (q, t) :: rest

/-- The search path built by a sequence of `add_directory` / `add_zip`
calls, in call order. -/
def buildPath {σ : Type} (ins : List (Nat × σ)) : List (Nat × σ) :=
  ins.foldl (fun l e => addSource l e.1 e.2) []

/-- Model of `AssetSystem::Data::open`: walk the search path in multimap
order, return the first non-null result, and throw `FatalError::Decode`
("Asset file not found") when every source misses.  `resolve` abstracts
the `std::visit` dispatch to the per-source `open`. -/
def AssetSystem.openAsset {σ α : Type} (resolve : σ → String → Option α) :
    List (Nat × σ) → String → Except FatalError α
  | [], _ => .error .Decode
  | (_, s) :: rest, key =>
    match resolve s key with
    | some r => .ok r
    | none => AssetSystem.openAsset resolve rest key

/-! ## Concrete inputs used by the claim theorems -/

/-- A 38-byte local file header plus payload for an entry named `a` (byte
97): compression method 8 (deflate) at offset 8, compressed-size field 3
at offset 18, uncompressed-size field 7 at offset 22, filename length 1 at
offset 26, extra length 0 at offset 28, then the name and 7 payload bytes. -/
def exDeflateData : List Nat :=
  [0x50, 0x4b, 3, 4, 20, 0, 0, 0, 8, 0, 0, 0, 0, 0, 1, 2, 3, 4,
   3, 0, 0, 0, 7, 0, 0, 0, 1, 0, 0, 0, 97, 65, 66, 67, 68, 69, 70, 71]

/-- Same header bytes with an unsupported compression method (7). -/
def exBadMethodData : List Nat :=
  [0x50, 0x4b, 3, 4, 20, 0, 0, 0, 7, 0, 0, 0, 0, 0, 1, 2, 3, 4,
   3, 0, 0, 0, 7, 0, 0, 0, 1, 0, 0, 0, 97, 65, 66, 67, 68, 69, 70, 71]

/-- A 116-byte archive tail: two central-directory records that both name
the file `a` (byte 97) with local-header offsets 10 and 20 respectively,
followed by the EOCD record (record count 2, central directory at 0). -/
def exDupData : List Nat :=
  [0x50, 0x4b, 1, 2, 0, 0, 0, 0, 0, 0, 0, 0, 0, 0, 0, 0, 0, 0, 0, 0,
   0, 0, 0, 0, 0, 0, 0, 0, 1, 0, 0, 0, 0, 0, 0, 0, 0, 0, 0, 0,
   0, 0, 10, 0, 0, 0, 97,
   0x50, 0x4b, 1, 2, 0, 0, 0, 0, 0, 0, 0, 0, 0, 0, 0, 0, 0, 0, 0, 0,
   0, 0, 0, 0, 0, 0, 0, 0, 1, 0, 0, 0, 0, 0, 0, 0, 0, 0, 0, 0,
   0, 0, 20, 0, 0, 0, 97,
   0x50, 0x4b, 5, 6, 0, 0, 0, 0, 2, 0, 2, 0, 94, 0, 0, 0, 0, 0, 0, 0,
   0, 0]

/-- A 70-byte truncated archive: EOCD at offset 0 (record count 1, central
directory at 22), one central-directory record declaring filename length 5
and local-header offset 10, but the file ends after only 2 name bytes
(97, 98). -/
def exTruncData : List Nat :=
  [0x50, 0x4b, 5, 6, 0, 0, 0, 0, 1, 0, 1, 0, 0, 0, 0, 0, 22, 0, 0, 0,
   0, 0,
   0x50, 0x4b, 1, 2, 0, 0, 0, 0, 0, 0, 0, 0, 0, 0, 0, 0, 0, 0, 0, 0,
   0, 0, 0, 0, 0, 0, 0, 0, 5, 0, 0, 0, 0, 0, 0, 0, 0, 0, 0, 0,
   0, 0, 10, 0, 0, 0, 97, 98]

/-- A 34-byte archive tail whose real EOCD record starts at offset 4 and
carries an 8-byte trailing comment that itself contains the EOCD signature
bytes at offset 26 (a decoy). -/
def exDecoyData : List Nat :=
  [1, 2, 3, 4,
   0x50, 0x4b, 5, 6, 0, 0, 0, 0, 1, 0, 1, 0, 22, 0, 0, 0, 0, 0, 0, 0,
   8, 0,
   0x50, 0x4b, 5, 6, 1, 1, 1, 1]

/-- An EOCD record start is the real one when the signature matches there
and its comment-length field accounts for exactly the bytes up to
end-of-file (the defining property of a well-formed EOCD record). -/
def isRealEOCD (data : List Nat) (off : Nat) : Prop :=
  sigAt data off = true ∧ off + 22 + readLE16 data (off + 20) = data.length

/-- A concrete resolver for search-path examples: sources are association
lists from names to payloads. -/
def exResolve (s : List (String × Nat)) (key : String) : Option Nat :=
  (s.find? (fun e => e.1 == key)).map (fun e => e.2)

/-- A directory check accepting exactly the directory `assets`. -/
def exIsDir : String → Bool := fun p => p == "assets"

/-- A filesystem containing exactly `assets/a.txt` (content `dir`). -/
def exFs : String → Option (List Nat) :=
  fun p => if p == "assets/a.txt" then some [100, 105, 114] else none

instance exceptDecEq {ε α : Type} [DecidableEq ε] [DecidableEq α] :
    DecidableEq (Except ε α) := fun x y =>
  match x, y with
  | .ok a, .ok b =>
    if h : a = b then isTrue (by rw [h])
    else isFalse (fun hh => h (Except.ok.inj hh))
  | .error a, .error b =>
    if h : a = b then isTrue (by rw [h])
    else isFalse (fun hh => h (Except.error.inj hh))
  | .ok _, .error _ => isFalse (fun hh => Except.noConfusion hh)
  | .error _, .ok _ => isFalse (fun hh => Except.noConfusion hh)

instance (data : List Nat) (off : Nat) : Decidable (isRealEOCD data off) := by
  unfold isRealEOCD
  infer_instance

/-! ## Claim theorems -/

/-- C1: the claim requires that reading the InflateStream of a deflate
entry through to end-of-data yields the original bytes.  The code cannot:
`ZipSource::open` does return a `DeflateStream` for method 8, but
`DeflateStream::StreamBuffer::underflow`, on the path that actually reads
compressed bytes and calls `inflate`, ignores the inflate status, never
publishes any decompressed byte through `setg` (the get area stays empty),
and flows off the end of the non-void function (the body stops at a
`//TODO`).  This holds for EVERY possible behaviour of the inflate engine,
so no decompressed byte can ever be served. -/
theorem c1_deflate_underflow_discards_output {Z : Type}
    (inflateStep : Z → List Nat → Z × List Nat) (eng : Z) :
    ZipSource.openEntry exDeflateData [([97], 0)] [97]
      = OpenResult.stream (ZipStream.deflate 31 38) ∧
    ((DeflateStreamBuffer.init 31 38).underflow exDeflateData inflateStep
        eng).2.2.1 = DeflateUnderflowRet.fellOffEnd ∧
    ((DeflateStreamBuffer.init 31 38).underflow exDeflateData inflateStep
        eng).1.getArea = [] := by
  refine ⟨by decide, ?_, ?_⟩ <;>
    simp [DeflateStreamBuffer.underflow, DeflateStreamBuffer.init,
      exDeflateData]

/-- C2 counterexample: the claim says the payload window ends at the start
plus the compressed-size field (offset 18 of the local header), distinct
from the uncompressed-size field.  On this header the compressed-size
field is 3 and the uncompressed-size field is 7, and `ZipSource::open`
produces the window `[31, 38)` — end `= 31 + 7`, taken from the
uncompressed-size field at offset 22, not `31 + 3`. -/
theorem c2_counterexample :
    ZipSource.openEntry exDeflateData [([97], 0)] [97]
      = OpenResult.stream (ZipStream.deflate 31 38) ∧
    readLE32 exDeflateData 18 = 3 ∧
    readLE32 exDeflateData 22 = 7 ∧
    (38 : Int) ≠ 31 + 3 := by
  decide

/-- C4 counterexample: the claim says the "not found" outcome is returned
distinctly from corruption/decode failures.  In the code both paths throw
the very same value: `AssetSystem::Data::open` with no source resolving
the name throws `FatalError::Decode`, and a corrupt archive entry (here an
unsupported compression method) also throws `FatalError::Decode`, so a
caller catching the exception cannot tell the two apart. -/
theorem c4_counterexample :
    AssetSystem.openAsset exResolve [(5, [("b", 1)])] "a"
      = Except.error FatalError.Decode ∧
    ZipSource.openEntry exBadMethodData [([97], 0)] [97]
      = OpenResult.fatal FatalError.Decode := by
  decide

/-- C5: the claim says `DirectorySource` resolves names against the
directory path it was constructed with.  The constructor validates the
path but never assigns the `m_path` member, so it keeps its
default-constructed empty value, and `open` then probes `"/" + key`
regardless of the constructed directory: with a filesystem holding a
readable `assets/a.txt`, constructing over `assets` and opening `a.txt`
misses. -/
theorem c5_directory_path_dropped :
    DirectorySource.construct exIsDir "assets"
      = Except.ok { m_path := "" } ∧
    DirectorySource.openEntry exFs { m_path := "" } "a.txt" = none ∧
    exFs ("assets" ++ "/" ++ "a.txt") = some [100, 105, 114] := by
  refine ⟨by decide, ?_, by decide⟩
  decide

/-- C6 counterexample: the claim says every seek whose target relative
offset is negative fails with an error and leaves the position unchanged.
A seek to relative offset `-2` from the start goes through `seekpos`,
which checks only the upper bound: it succeeds (returns `-2`, not the
error value `-1`) and moves `m_off_pos` from 10 to 8 — below the window
begin. -/
theorem c6_counterexample :
    CatStreamBuffer.seekoff (CatStreamBuffer.init 10 20) (-2) SeekDir.beg
      = ({ m_off_beg := 10, m_off_end := 20, m_off_pos := 8, buffer := [] },
         -2) ∧
    (8 : Int) ≠ 10 ∧ ((-2 : Int) = -1 → False) := by
  decide

/-- C7 counterexample: the claim quantifies over every sequence of read
and seek operations.  After the accepted negative seek-to-start of the C6
counterexample, a read on the window `[2, 4)` of a 6-byte stream reads
underlying bytes `[0, 4)` — including offsets 0 and 1 outside the window —
and returns byte 10, which sits at offset 0, outside the window (whose
slice is `[12, 13]`). -/
theorem c7_counterexample :
    (CatStreamBuffer.run [10, 11, 12, 13, 14, 15] (CatStreamBuffer.init 2 4)
        [CatOp.seek (-2) SeekDir.beg, CatOp.read1]).2
      = ([(0, 4)], [10]) ∧
    (0 : Int) < 2 ∧
    (([10, 11, 12, 13, 14, 15] : List Nat).drop 2).take 2 = [12, 13] ∧
    (10 : Nat) ∉ [12, 13] := by
  decide

set_option maxRecDepth 4000 in
/-- C8 counterexample: the claim says the backward scan still locates the
real EOCD when the trailing comment contains the signature bytes.  In this
archive the real EOCD record starts at offset 4 (its comment-length field
8 accounts exactly for the bytes to end-of-file) and its comment contains
a decoy signature at offset 26; the scan returns 26 — the decoy — because
it takes the rightmost match in the window. -/
theorem c8_counterexample :
    ZipSource.seek_eocd exDecoyData = some 26 ∧
    isRealEOCD exDecoyData 4 ∧
    ¬ isRealEOCD exDecoyData 26 ∧
    (26 : Nat) ≠ 4 := by
  decide

set_option maxRecDepth 4000 in
/-- C9 counterexample: the claim says a duplicated filename maps to the
LAST record in central-directory order.  This archive's central directory
lists the name `a` twice, with local-header offsets 10 then 20; because
`std::unordered_map::emplace` keeps the existing value, `ZipSource::init`
maps the name to 10 — the FIRST record — not 20. -/
theorem c9_counterexample :
    cdirRecords 2 (IStream.ofData exDupData) 0 = [([97], 10), ([97], 20)] ∧
    ZipSource.init exDupData = Except.ok [([97], 10)] ∧
    lookupIdx [([97], 10)] [97] = some 10 ∧
    (10 : Nat) ≠ 20 := by
  decide

set_option maxRecDepth 4000 in
/-- C10 counterexample: the claim says a short read while parsing a
fixed-size header field fails fatally with a decode error.  In this
truncated archive the declared 5-byte filename is cut off after 2 bytes:
the read sets the stream failbit (modelled below) and zero-fills the rest
of the name, yet `ZipSource::init` returns a normal index — no
`FatalError::Decode` is raised. -/
theorem c10_counterexample :
    ZipSource.init exTruncData = Except.ok [([97, 98, 0, 0, 0], 10)] ∧
    ZipSource.init exTruncData ≠ Except.error FatalError.Decode ∧
    (cdirLoop 1 (IStream.ofData exTruncData) 22 []).2.fail = true ∧
    exTruncData.length = 70 ∧ 70 < 68 + 5 := by
  decide

/-! ## Helper lemmas about the stream model -/

theorem readBytes_ok (s : IStream) (count : Nat) (hf : s.fail = false)
    (hlen : s.pos + count ≤ s.data.length) :
    s.readBytes count =
      ((s.data.drop s.pos).take count, { s with pos := s.pos + count }) := by
  have hmin : min count (s.data.length - s.pos) = count := by omega
  simp only [IStream.readBytes, hf, Bool.false_eq_true, if_false, hmin]
  simp

theorem read16_ok (s : IStream) (hf : s.fail = false)
    (hlen : s.pos + 2 ≤ s.data.length) :
    s.read16 = (readLE16 s.data s.pos, { s with pos := s.pos + 2 }) := by
  simp only [IStream.read16, readBytes_ok s 2 hf hlen, readLE16]

theorem read32_ok (s : IStream) (hf : s.fail = false)
    (hlen : s.pos + 4 ≤ s.data.length) :
    s.read32 = (readLE32 s.data s.pos, { s with pos := s.pos + 4 }) := by
  simp only [IStream.read32, readBytes_ok s 4 hf hlen, readLE32]

theorem seekgBeg_ok (s : IStream) (off : Nat) (hf : s.fail = false) :
    s.seekgBeg (off : Int) = { s with eofbit := false, pos := off } := by
  simp [IStream.seekgBeg, hf]

/-- C2 amended: in `ZipSource::open`, when the name is indexed at `base`
and the fixed 30-byte local header is in range, the payload window starts
at `base + 30 + n + m` and ends at that start plus the field at
`base + 22` — the uncompressed-size field — which is the one field used
for BOTH the stored and the deflate window; the compressed-size field at
`base + 18` is never read. -/
theorem c2_window_uses_uncompressed_size (data : List Nat)
    (idx : List (List Nat × Nat)) (key : List Nat) (base : Nat)
    (hfind : lookupIdx idx key = some base)
    (hlen : base + 30 ≤ data.length) :
    ZipSource.openEntry data idx key =
      (if readLE16 data (base + 8) = 0 then
        OpenResult.stream (ZipStream.cat
          ((base : Int) + 30 + readLE16 data (base + 26) + readLE16 data (base + 28))
          ((base : Int) + 30 + readLE16 data (base + 26) + readLE16 data (base + 28)
            + readLE32 data (base + 22)))
      else if readLE16 data (base + 8) = 8 then
        OpenResult.stream (ZipStream.deflate
          ((base : Int) + 30 + readLE16 data (base + 26) + readLE16 data (base + 28))
          ((base : Int) + 30 + readLE16 data (base + 26) + readLE16 data (base + 28)
            + readLE32 data (base + 22)))
      else OpenResult.fatal FatalError.Decode) := by
  have t8 : ((base : Int) + 8).toNat = base + 8 := by omega
  have t22 : ((base : Int) + 22).toNat = base + 22 := by omega
  have t26 : ((base : Int) + 26).toNat = base + 26 := by omega
  have n8 : ¬((base : Int) + 8 < 0) := by omega
  have n22 : ¬((base : Int) + 22 < 0) := by omega
  have n26 : ¬((base : Int) + 26 < 0) := by omega
  have hadd : base + 26 + 2 = base + 28 := by omega
  have hc8 : ¬(data.length - (base + 8) < 2) := by omega
  have hc22 : ¬(data.length - (base + 22) < 4) := by omega
  have hc26 : ¬(data.length - (base + 26) < 2) := by omega
  have hc28 : ¬(data.length - (base + 28) < 2) := by omega
  have m8 : min 2 (data.length - (base + 8)) = 2 := by omega
  have m22 : min 4 (data.length - (base + 22)) = 4 := by omega
  have m26 : min 2 (data.length - (base + 26)) = 2 := by omega
  have m28 : min 2 (data.length - (base + 28)) = 2 := by omega
  simp only [ZipSource.openEntry, hfind]
  simp only [IStream.ofData, IStream.seekgBeg, IStream.read16, IStream.read32,
    IStream.readBytes, Bool.false_eq_true, if_false, n8, n22, n26, t8, t22,
    t26, hadd, hc8, hc22, hc26, hc28, m8, m22, m26, m28, lt_self_iff_false,
    readLE16, readLE32]

/-- Witness for the C2 amended theorem at the concrete deflate header. -/
theorem c2_window_uses_uncompressed_size_witness :
    ZipSource.openEntry exDeflateData [([97], 0)] [97] =
      (if readLE16 exDeflateData (0 + 8) = 0 then
        OpenResult.stream (ZipStream.cat
          ((0 : Nat) + 30 + readLE16 exDeflateData (0 + 26) + readLE16 exDeflateData (0 + 28))
          ((0 : Nat) + 30 + readLE16 exDeflateData (0 + 26) + readLE16 exDeflateData (0 + 28)
            + readLE32 exDeflateData (0 + 22)))
      else if readLE16 exDeflateData (0 + 8) = 8 then
        OpenResult.stream (ZipStream.deflate
          ((0 : Nat) + 30 + readLE16 exDeflateData (0 + 26) + readLE16 exDeflateData (0 + 28))
          ((0 : Nat) + 30 + readLE16 exDeflateData (0 + 26) + readLE16 exDeflateData (0 + 28)
            + readLE32 exDeflateData (0 + 22)))
      else OpenResult.fatal FatalError.Decode) :=
  c2_window_uses_uncompressed_size exDeflateData [([97], 0)] [97] 0
    (by decide) (by decide)

/-! ## Search path lemmas (C3, C4) -/

/-- The ordering relation of the search-path multimap: compare priorities. -/
def prioLE {σ : Type} (a b : Nat × σ) : Prop := a.1 ≤ b.1

theorem mem_addSource {σ : Type} (l : List (Nat × σ)) (p : Nat) (s : σ)
    (x : Nat × σ) : x ∈ addSource l p s ↔ x ∈ l ∨ x = (p, s) := by
  induction l with
  | nil => simp [addSource]
  | cons a rest ih =>
    by_cases h : a.1 ≤ p
    · simp only [addSource, if_pos h, List.mem_cons, ih]
      tauto
    · simp only [addSource, if_neg h, List.mem_cons]
      tauto

theorem addSource_sorted {σ : Type} (l : List (Nat × σ)) (p : Nat) (s : σ)
    (h : l.Pairwise prioLE) : (addSource l p s).Pairwise prioLE := by
  induction l with
  | nil => simp [addSource, List.pairwise_singleton]
  | cons a rest ih =>
    rcases List.pairwise_cons.mp h with ⟨ha, hrest⟩
    by_cases hq : a.1 ≤ p
    · simp only [addSource, if_pos hq]
      refine List.pairwise_cons.mpr ⟨?_, ih hrest⟩
      intro x hx
      rcases (mem_addSource rest p s x).mp hx with hx | hx
      · exact ha x hx
      · rw [hx]; exact hq
    · simp only [addSource, if_neg hq]
      refine List.pairwise_cons.mpr ⟨?_, h⟩
      intro x hx
      rcases List.mem_cons.mp hx with hx | hx
      · rw [hx]; exact le_of_not_le hq
      · exact le_trans (le_of_not_le hq) (ha x hx)

theorem buildPath_sorted_aux {σ : Type} (ins : List (Nat × σ))
    (acc : List (Nat × σ)) (hacc : acc.Pairwise prioLE) :
    (ins.foldl (fun l e => addSource l e.1 e.2) acc).Pairwise prioLE := by
  induction ins generalizing acc with
  | nil => exact hacc
  | cons e rest ih =>
    exact ih (addSource acc e.1 e.2) (addSource_sorted acc e.1 e.2 hacc)

theorem buildPath_sorted {σ : Type} (ins : List (Nat × σ)) :
    (buildPath ins).Pairwise prioLE :=
  buildPath_sorted_aux ins [] List.Pairwise.nil

theorem addSource_filter {σ : Type} (l : List (Nat × σ)) (p : Nat) (s : σ)
    (q : Nat) (h : l.Pairwise prioLE) :
    (addSource l p s).filter (fun e => e.1 == q) =
      if p = q then l.filter (fun e => e.1 == q) ++ [(p, s)]
      else l.filter (fun e => e.1 == q) := by
  induction l with
  | nil =>
    by_cases hpq : p = q
    · simp [addSource, List.filter, hpq]
    · have hb : (p == q) = false := beq_eq_false_iff_ne.mpr hpq
      simp [addSource, List.filter, hb, hpq]
  | cons a rest ih =>
    rcases List.pairwise_cons.mp h with ⟨ha, hrest⟩
    by_cases hq : a.1 ≤ p
    · have step : (addSource (a :: rest) p s) = a :: addSource rest p s := by
        simp [addSource, if_pos hq]
      rw [step]
      by_cases haq : a.1 = q
      · simp only [List.filter_cons, haq, beq_self_eq_true, if_pos,
          ih hrest]
        by_cases hpq : p = q <;> simp [hpq]
      · have : (a.1 == q) = false := beq_eq_false_iff_ne.mpr haq
        simp only [List.filter_cons, this, ih hrest]
        by_cases hpq : p = q <;> simp [hpq]
    · have step : (addSource (a :: rest) p s) = (p, s) :: a :: rest := by
        simp [addSource, if_neg hq]
      rw [step]
      by_cases hpq : p = q
      · -- every priority in a :: rest exceeds p = q, so the filter is empty
        have hemp : (a :: rest).filter (fun e => e.1 == q) = [] := by
          refine List.filter_eq_nil_iff.mpr ?_
          intro x hx
          have hxp : p < x.1 := by
            rcases List.mem_cons.mp hx with hx | hx
            · rw [hx]; exact lt_of_not_le hq
            · exact lt_of_lt_of_le (lt_of_not_le hq) (ha x hx)
          simp only [beq_iff_eq]
          omega
        simp [List.filter_cons, hpq, hemp]
      · have : (p == q) = false := beq_eq_false_iff_ne.mpr hpq
        simp [List.filter_cons, this, hpq]

theorem buildPath_filter_aux {σ : Type} (ins : List (Nat × σ))
    (acc : List (Nat × σ)) (q : Nat) (hacc : acc.Pairwise prioLE) :
    (ins.foldl (fun l e => addSource l e.1 e.2) acc).filter
        (fun e => e.1 == q) =
      acc.filter (fun e => e.1 == q) ++ ins.filter (fun e => e.1 == q) := by
  induction ins generalizing acc with
  | nil => simp
  | cons e rest ih =>
    have hsorted := addSource_sorted acc e.1 e.2 hacc
    calc ((e :: rest).foldl (fun l x => addSource l x.1 x.2) acc).filter
          (fun x => x.1 == q)
        = (addSource acc e.1 e.2).filter (fun x => x.1 == q) ++
            rest.filter (fun x => x.1 == q) := by
          simpa using ih (addSource acc e.1 e.2) hsorted
      _ = acc.filter (fun x => x.1 == q) ++ (e :: rest).filter
            (fun x => x.1 == q) := by
          rw [addSource_filter acc e.1 e.2 q hacc]
          by_cases hpq : e.1 = q
          · have hb : (e.1 == q) = true := beq_iff_eq.mpr hpq
            rw [if_pos hpq]
            simp [List.filter_cons, hb, List.append_assoc]
          · have hb : (e.1 == q) = false := beq_eq_false_iff_ne.mpr hpq
            rw [if_neg hpq]
            simp [List.filter_cons, hb]

theorem buildPath_filter {σ : Type} (ins : List (Nat × σ)) (q : Nat) :
    (buildPath ins).filter (fun e => e.1 == q) =
      ins.filter (fun e => e.1 == q) := by
  simpa using buildPath_filter_aux ins [] q List.Pairwise.nil

theorem openAsset_first_hit {σ α : Type} (resolve : σ → String → Option α)
    (key : String) (l₁ l₂ : List (Nat × σ)) (p : Nat) (s : σ) (r : α)
    (hmiss : ∀ e ∈ l₁, resolve e.2 key = none)
    (hhit : resolve s key = some r) :
    AssetSystem.openAsset resolve (l₁ ++ (p, s) :: l₂) key = .ok r := by
  induction l₁ with
  | nil => simp [AssetSystem.openAsset, hhit]
  | cons a rest ih =>
    have ha : resolve a.2 key = none := hmiss a (List.mem_cons_self a rest)
    have : AssetSystem.openAsset resolve ((a :: rest) ++ (p, s) :: l₂) key
        = AssetSystem.openAsset resolve (rest ++ (p, s) :: l₂) key := by
      simp [AssetSystem.openAsset, ha]
    rw [this]
    exact ih (fun e he => hmiss e (List.mem_cons_of_mem a he))

/-- C3: the search path built by any sequence of `add_*` calls is sorted
by ascending priority; among equal priorities the multimap preserves
insertion order (the filter at each priority equals the insertion-order
filter); and when the path splits as `l₁ ++ (p, s) :: l₂` with every
source of `l₁` missing and `s` hitting, `open` returns the hit of `s` —
and does so whatever `l₂` holds, so sources after the first hit are never
consulted. -/
theorem c3_search_order {σ α : Type} (resolve : σ → String → Option α)
    (ins : List (Nat × σ)) (key : String) (q : Nat)
    (l₁ l₂ l₂' : List (Nat × σ)) (p : Nat) (s : σ) (r : α)
    (hsplit : buildPath ins = l₁ ++ (p, s) :: l₂)
    (hmiss : ∀ e ∈ l₁, resolve e.2 key = none)
    (hhit : resolve s key = some r) :
    (buildPath ins).Pairwise prioLE ∧
    (buildPath ins).filter (fun e => e.1 == q) =
      ins.filter (fun e => e.1 == q) ∧
    AssetSystem.openAsset resolve (buildPath ins) key = .ok r ∧
    AssetSystem.openAsset resolve (l₁ ++ (p, s) :: l₂') key = .ok r := by
  refine ⟨buildPath_sorted ins, buildPath_filter ins q, ?_, ?_⟩
  · rw [hsplit]
    exact openAsset_first_hit resolve key l₁ l₂ p s r hmiss hhit
  · exact openAsset_first_hit resolve key l₁ l₂' p s r hmiss hhit

/-- Witness for C3: a priority-2 source holding `a` and an empty priority-1
source; the build reorders them, the priority-1 source is consulted and
misses, the priority-2 source hits, and a decoy priority-9 source holding
a different payload for `a` is never reached. -/
theorem c3_search_order_witness :
    (buildPath [(2, [("a", 7)]), (1, ([] : List (String × Nat)))]).Pairwise
      prioLE ∧
    (buildPath [(2, [("a", 7)]), (1, ([] : List (String × Nat)))]).filter
        (fun e => e.1 == 1) =
      [(2, [("a", 7)]), (1, ([] : List (String × Nat)))].filter
        (fun e => e.1 == 1) ∧
    AssetSystem.openAsset exResolve
        (buildPath [(2, [("a", 7)]), (1, ([] : List (String × Nat)))]) "a"
      = .ok 7 ∧
    AssetSystem.openAsset exResolve
        ([(1, ([] : List (String × Nat)))] ++ (2, [("a", 7)]) ::
          [(9, [("a", 99)])]) "a"
      = .ok 7 :=
  c3_search_order exResolve [(2, [("a", 7)]), (1, [])] "a" 1
    [(1, [])] [] [(9, [("a", 99)])] 2 [("a", 7)] 7
    (by decide) (by decide) (by decide)

/-- C4 amended: when every registered source misses, `open` throws
`FatalError::Decode` — the same single decode error category that
corruption failures use (see the C4 counterexample); what remains true is
that individual source misses are swallowed so iteration continues, and
only after all sources missed is the error raised. -/
theorem c4_not_found_raises_decode {σ α : Type}
    (resolve : σ → String → Option α) (l : List (Nat × σ)) (key : String)
    (hmiss : ∀ e ∈ l, resolve e.2 key = none) :
    AssetSystem.openAsset resolve l key = .error FatalError.Decode := by
  induction l with
  | nil => rfl
  | cons a rest ih =>
    have ha : resolve a.2 key = none := hmiss a (List.mem_cons_self a rest)
    have step : AssetSystem.openAsset resolve (a :: rest) key
        = AssetSystem.openAsset resolve rest key := by
      simp [AssetSystem.openAsset, ha]
    rw [step]
    exact ih (fun e he => hmiss e (List.mem_cons_of_mem a he))

/-- Witness for the C4 amended theorem on a one-source path that misses. -/
theorem c4_not_found_raises_decode_witness :
    AssetSystem.openAsset exResolve [(3, [("b", 1)])] "a"
      = .error FatalError.Decode :=
  c4_not_found_raises_decode exResolve [(3, [("b", 1)])] "a" (by decide)

/-! ## Seek validation (C6) -/

/-- The out-of-range seek requests that `CatStream::StreamBuffer` rejects:
for `cur` and `fin` (end) directions any absolute target outside
`[m_off_beg, m_off_end]`, and for `beg` (via `seekpos`) any target above
`m_off_end`.  A negative target relative to start is NOT here — the code
accepts it (see the C6 counterexample). -/
def seekRejects (b : CatStreamBuffer) (off : Int) (dir : SeekDir) : Prop :=
  match dir with
  | .cur => off + b.m_off_pos < b.m_off_beg ∨ b.m_off_end < off + b.m_off_pos
  | .fin => off + b.m_off_end < b.m_off_beg ∨ b.m_off_end < off + b.m_off_end
  | .beg => b.m_off_end < off + b.m_off_beg

/-- C6 amended: every seek relative to current or end whose absolute
target falls outside the window, and every seek relative to start whose
target exceeds the window end, returns the error value `-1` and leaves
the whole stream-buffer state — position and get area — unchanged.
(The claim as stated also covered negative targets relative to start;
those are accepted by `seekpos`, which validates only the upper bound.) -/
theorem c6_out_of_range_seek_fails (b : CatStreamBuffer) (off : Int)
    (dir : SeekDir) (h : seekRejects b off dir) :
    b.seekoff off dir = (b, -1) := by
  cases dir with
  | cur =>
    simp only [seekRejects] at h
    simp only [CatStreamBuffer.seekoff]
    rw [if_neg (by omega)]
  | fin =>
    simp only [seekRejects] at h
    simp only [CatStreamBuffer.seekoff]
    rw [if_neg (by omega)]
  | beg =>
    simp only [seekRejects] at h
    simp only [CatStreamBuffer.seekoff, CatStreamBuffer.seekpos]
    rw [if_neg (by omega)]

/-- Witness for the C6 amended theorem: a seek to relative offset 15 on a
window of size 10 is rejected without effect. -/
theorem c6_out_of_range_seek_fails_witness :
    CatStreamBuffer.seekoff (CatStreamBuffer.init 10 20) 15 SeekDir.beg
      = (CatStreamBuffer.init 10 20, -1) :=
  c6_out_of_range_seek_fails (CatStreamBuffer.init 10 20) 15 SeekDir.beg
    (by simp [seekRejects, CatStreamBuffer.init])

/-! ## Short reads during parsing (C10) -/

/-- C10 amended: `ZipSource::init` raises `FatalError::Decode` exactly when
the bounded EOCD scan fails.  In particular a short read while parsing the
EOCD fields or a central-directory record never raises: the reads are
unchecked, the stream quietly enters its fail state, and `init` returns a
(possibly zero-filled) index — see the C10 counterexample for a concrete
truncated archive. -/
theorem c10_init_error_iff_no_eocd (data : List Nat) :
    ZipSource.init data = Except.error FatalError.Decode ↔
      ZipSource.seek_eocd data = none := by
  unfold ZipSource.init
  cases h : ZipSource.seek_eocd data <;> simp

/-! ## EOCD scan (C8) -/

/-- A signature match needs its four nonzero bytes in range: `getD`
defaults to 0 past the end, which matches no signature byte. -/
theorem sigAt_true_bound (data : List Nat) (j : Nat)
    (h : sigAt data j = true) : j + 4 ≤ data.length := by
  by_contra hlt
  have h3 : data.length ≤ j + 3 := by omega
  have : data.getD (j + 3) 0 = 0 := List.getD_eq_default data 0 h3
  simp only [sigAt, Bool.and_eq_true, beq_iff_eq] at h
  omega

/-- The inner backward scan returns the rightmost signature offset at or
below its starting point. -/
theorem scanBack_finds (data : List Nat) (getpos : Nat) (j k : Nat)
    (hk : sigAt data (getpos + k) = true) (hkj : k ≤ j)
    (hmax : ∀ i, k < i → i ≤ j → sigAt data (getpos + i) = false) :
    scanBack data getpos j = some (getpos + k) := by
  induction j with
  | zero =>
    have hz : k = 0 := Nat.le_zero.mp hkj
    subst hz
    have hk0 : sigAt data getpos = true := by simpa using hk
    simp [scanBack, hk0]
  | succ j ih =>
    by_cases hkj1 : k = j + 1
    · subst hkj1
      have hk' : sigAt data (getpos + j + 1) = true := by
        rw [Nat.add_assoc]
        exact hk
      simp only [scanBack, hk', if_true]
      rw [Nat.add_assoc]
    · have hk_le : k ≤ j := by omega
      have hnot : sigAt data (getpos + (j + 1)) = false :=
        hmax (j + 1) (by omega) (by omega)
      have hnot' : sigAt data (getpos + j + 1) = false := by
        have : getpos + (j + 1) = getpos + j + 1 := by omega
        rwa [this] at hnot
      simp only [scanBack, hnot', Bool.false_eq_true, if_false]
      exact ih hk_le (fun i hi hij => hmax i hi (by omega))

/-- One-step unfolding of the bounded backward scan loop. -/
theorem eocdLoop_succ (data : List Nat) (fuel : Nat) (getpos0 : Int) :
    eocdLoop data (fuel + 1) getpos0 =
      (let getpos := (max getpos0 0).toNat
       let gcount := min 1024 (data.length - getpos)
       match (if 4 ≤ gcount then scanBack data getpos (gcount - 4)
              else none) with
       | some k => some k
       | none =>
         if getpos ≠ 0 then eocdLoop data fuel ((getpos : Int) - 1024)
         else none) := rfl

/-- C8 amended: on an archive that fits in a single scan window, the scan
returns the RIGHTMOST occurrence of the EOCD signature — whatever record
(or comment decoy) it belongs to.  For an archive whose trailing comment
contains the signature bytes, the rightmost occurrence is the decoy inside
the comment, which lies to the right of the real EOCD, so the real EOCD is
NOT the one located (see the C8 counterexample). -/
theorem c8_scan_takes_rightmost (data : List Nat) (k : Nat)
    (hlen : data.length ≤ 1024)
    (hk : sigAt data k = true)
    (hmax : ∀ j, sigAt data j = true → j ≤ k) :
    ZipSource.seek_eocd data = some k := by
  have hk4 : k + 4 ≤ data.length := sigAt_true_bound data k hk
  have hgp : (max ((data.length : Int) - 1024) 0).toNat = 0 := by omega
  have hgc : min 1024 (data.length - 0) = data.length := by omega
  have hscan : scanBack data 0 (data.length - 4) = some k := by
    have hk' : sigAt data (0 + k) = true := by simpa using hk
    have := scanBack_finds data 0 (data.length - 4) k hk' (by omega) ?_
    · simpa using this
    · intro i hi hij
      by_contra hcon
      have htrue : sigAt data (0 + i) = true := by
        cases h : sigAt data (0 + i)
        · exact absurd h hcon
        · rfl
      have : i ≤ k := hmax i (by simpa using htrue)
      omega
  show eocdLoop data 64 ((data.length : Int) - 1024) = some k
  rw [show (64 : Nat) = 63 + 1 from rfl, eocdLoop_succ]
  simp only [hgp, hgc]
  rw [if_pos (show 4 ≤ data.length by omega)]
  rw [hscan]

/-- Witness for the C8 amended theorem on the decoy archive: the rightmost
signature occurrence (the decoy at 26) is what the scan returns. -/
theorem c8_scan_takes_rightmost_witness :
    ZipSource.seek_eocd exDecoyData = some 26 :=
  c8_scan_takes_rightmost exDecoyData 26 (by decide) (by decide)
    (fun j hj => by
      have h4 := sigAt_true_bound exDecoyData j hj
      have hlen : exDecoyData.length = 34 := rfl
      rw [hlen] at h4
      have hlt : j < 34 := by omega
      exact (by decide : ∀ i, i < 34 → sigAt exDecoyData i = true → i ≤ 26)
        j hlt hj)

/-! ## Index construction (C9) -/

theorem lookupIdx_emplaceIdx (idx : List (List Nat × Nat))
    (name key : List Nat) (off : Nat) :
    lookupIdx (emplaceIdx idx name off) key =
      match lookupIdx idx key with
      | some v => some v
      | none => if key = name then some off else none := by
  unfold emplaceIdx lookupIdx
  by_cases hpresent : (idx.find? (fun e => e.1 = name)).isSome
  · rw [if_pos hpresent]
    cases hfind : idx.find? (fun e => e.1 = key) with
    | some e =>
      simp [hfind]
    | none =>
      simp only [hfind, Option.map_none']
      by_cases hkn : key = name
      · -- key = name yet no entry with key: contradicts presence of name
        subst hkn
        rw [hfind] at hpresent
        simp at hpresent
      · simp [hkn]
  · rw [if_neg hpresent]
    rw [List.find?_append]
    cases hfind : idx.find? (fun e => e.1 = key) with
    | some e => simp [hfind]
    | none =>
      simp only [hfind, Option.none_orElse, Option.map_none']
      by_cases hkn : key = name
      · subst hkn
        simp [List.find?]
      · have : (decide ((name, off).1 = key)) = false := by
          simp [Ne.symm hkn]
        simp [List.find?, this, hkn]

theorem lookupIdx_fold_emplace (recs : List (List Nat × Nat))
    (idx : List (List Nat × Nat)) (name : List Nat) :
    lookupIdx (recs.foldl (fun a r => emplaceIdx a r.1 r.2) idx) name =
      match lookupIdx idx name with
      | some v => some v
      | none => (recs.find? (fun r => r.1 = name)).map (fun r => r.2) := by
  induction recs generalizing idx with
  | nil =>
    cases h : lookupIdx idx name <;> simp [h]
  | cons r rest ih =>
    simp only [List.foldl_cons]
    rw [ih (emplaceIdx idx r.1 r.2)]
    rw [lookupIdx_emplaceIdx idx r.1 name r.2]
    cases h : lookupIdx idx name with
    | some v => simp
    | none =>
      simp only []
      by_cases hrn : name = r.1
      · subst hrn
        simp [List.find?]
      · have hb : (decide (r.1 = name)) = false := by
          simp [Ne.symm hrn]
        simp [List.find?, hb, hrn]

theorem cdirLoop_eq_fold (c : Nat) (s : IStream) (base : Int)
    (idx : List (List Nat × Nat)) :
    (cdirLoop c s base idx).1 =
      (cdirRecords c s base).foldl (fun a r => emplaceIdx a r.1 r.2) idx := by
  induction c generalizing s base idx with
  | zero => rfl
  | succ c ih =>
    simp only [cdirLoop, cdirRecords, List.foldl_cons]
    exact ih _ _ _

/-- C9 amended: for every archive stream state, record count and starting
offset, the index built by the central-directory loop maps a name to the
local-header offset of the FIRST record carrying that name in
central-directory iteration order (`std::unordered_map::emplace` keeps the
existing binding, so later duplicates are dropped), not the last. -/
theorem c9_duplicate_name_first_wins (c : Nat) (s : IStream) (base : Int)
    (name : List Nat) :
    lookupIdx (cdirLoop c s base []).1 name =
      ((cdirRecords c s base).find? (fun r => r.1 = name)).map
        (fun r => r.2) := by
  rw [cdirLoop_eq_fold]
  rw [lookupIdx_fold_emplace]
  simp [lookupIdx]

/-! ## Window confinement (C7) -/

/-- A byte value `c` is "in the window" `[beg, fin)` of `data` when it is
the byte stored at some offset inside that window. -/
def inWindow (data : List Nat) (beg fin : Int) (c : Nat) : Prop :=
  ∃ j : Nat, beg ≤ (j : Int) ∧ (j : Int) < fin ∧ data.getD j 0 = c

/-- The state invariant of a `CatStream::StreamBuffer` over window
`[beg, fin)`: the bounds are as constructed, the underlying position stays
inside `[beg, fin]`, and every buffered byte came from inside the window. -/
def catInv (data : List Nat) (beg fin : Int) (b : CatStreamBuffer) : Prop :=
  b.m_off_beg = beg ∧ b.m_off_end = fin ∧ beg ≤ b.m_off_pos ∧
    b.m_off_pos ≤ fin ∧ ∀ c ∈ b.buffer, inWindow data beg fin c

theorem mem_take_drop (data : List Nat) (a n c : Nat)
    (hc : c ∈ (data.drop a).take n) :
    ∃ i, i < n ∧ a + i < data.length ∧ data.getD (a + i) 0 = c := by
  obtain ⟨i, hi, hci⟩ := List.mem_iff_getElem.mp hc
  rw [List.length_take, List.length_drop] at hi
  refine ⟨i, by omega, by omega, ?_⟩
  rw [List.getElem_take] at hci
  rw [List.getElem_drop] at hci
  rw [List.getD_eq_getElem]
  exact hci

theorem catUnderflow_inv (data : List Nat) (beg fin : Int)
    (b : CatStreamBuffer) (h0 : 0 ≤ beg) (h2 : fin ≤ (data.length : Int))
    (hb : catInv data beg fin b) :
    catInv data beg fin (b.underflow data).buf ∧
    ((b.underflow data).readLo < (b.underflow data).readHi →
      beg ≤ (b.underflow data).readLo ∧ (b.underflow data).readHi ≤ fin) ∧
    (∀ c, (b.underflow data).ret = some c → inWindow data beg fin c) := by
  obtain ⟨hbeg, hfin, hlo, hhi, hbuf⟩ := hb
  simp only [CatStreamBuffer.underflow]
  split_ifs with h1 h2a h3 h4
  · exact ⟨⟨hbeg, hfin, hlo, hhi, by simp⟩, by dsimp only; omega, by simp⟩
  · exact ⟨⟨hbeg, hfin, hlo, hhi, by simp⟩, by dsimp only; omega, by simp⟩
  · exact ⟨⟨hbeg, hfin, hlo, hhi, by simp⟩, by dsimp only; omega, by simp⟩
  · -- a short extraction is impossible: the window fits inside the data
    exfalso
    omega
  · -- the regular path: a full chunk from [m_off_pos, m_off_pos + got)
    have hmem : ∀ c ∈ (data.drop b.m_off_pos.toNat).take
        (min (min (b.m_off_end - b.m_off_pos).toNat 4096)
          (data.length - b.m_off_pos.toNat)), inWindow data beg fin c := by
      intro c hcmem
      obtain ⟨i, hi, hilen, hig⟩ := mem_take_drop data _ _ c hcmem
      refine ⟨b.m_off_pos.toNat + i, by push_cast; omega, by push_cast; omega,
        hig⟩
    refine ⟨⟨hbeg, hfin, by dsimp only; omega, by dsimp only; omega, ?_⟩,
      by dsimp only; intro hgt; exact ⟨by omega, by push_cast; omega⟩, ?_⟩
    · simpa using hmem
    · intro c hc
      simp only [Option.some.injEq] at hc
      have hne : ((data.drop b.m_off_pos.toNat).take
          (min (min (b.m_off_end - b.m_off_pos).toNat 4096)
            (data.length - b.m_off_pos.toNat))).length ≠ 0 := by
        rw [List.length_take, List.length_drop]
        omega
      have hmm : ((data.drop b.m_off_pos.toNat).take
          (min (min (b.m_off_end - b.m_off_pos).toNat 4096)
            (data.length - b.m_off_pos.toNat))).headD 0 ∈
          (data.drop b.m_off_pos.toNat).take
            (min (min (b.m_off_end - b.m_off_pos).toNat 4096)
              (data.length - b.m_off_pos.toNat)) := by
        cases hh : (data.drop b.m_off_pos.toNat).take
            (min (min (b.m_off_end - b.m_off_pos).toNat 4096)
              (data.length - b.m_off_pos.toNat)) with
        | nil => rw [hh] at hne; simp at hne
        | cons x t => simp
      rw [hc] at hmm
      exact hmem _ hmm

theorem catSeekoff_inv (data : List Nat) (beg fin : Int)
    (b : CatStreamBuffer) (off : Int) (dir : SeekDir)
    (hb : catInv data beg fin b)
    (hdir : dir = SeekDir.beg → 0 ≤ off) :
    catInv data beg fin (b.seekoff off dir).1 := by
  obtain ⟨hbeg, hfin, hlo, hhi, hbuf⟩ := hb
  cases dir with
  | cur =>
    simp only [CatStreamBuffer.seekoff]
    split_ifs with h
    · exact ⟨hbeg, hfin, by dsimp only; omega, by dsimp only; omega, by simp⟩
    · exact ⟨hbeg, hfin, hlo, hhi, hbuf⟩
  | fin =>
    simp only [CatStreamBuffer.seekoff]
    split_ifs with h
    · exact ⟨hbeg, hfin, by dsimp only; omega, by dsimp only; omega, by simp⟩
    · exact ⟨hbeg, hfin, hlo, hhi, hbuf⟩
  | beg =>
    have hoff : 0 ≤ off := hdir rfl
    simp only [CatStreamBuffer.seekoff, CatStreamBuffer.seekpos]
    split_ifs with h
    · exact ⟨hbeg, hfin, by dsimp only; omega, by dsimp only; omega, by simp⟩
    · exact ⟨hbeg, hfin, hlo, hhi, hbuf⟩

theorem catRead1_inv (data : List Nat) (beg fin : Int) (b : CatStreamBuffer)
    (h0 : 0 ≤ beg) (h2 : fin ≤ (data.length : Int))
    (hb : catInv data beg fin b) :
    catInv data beg fin (b.read1 data).1 ∧
    ((b.read1 data).2.2.1 < (b.read1 data).2.2.2 →
      beg ≤ (b.read1 data).2.2.1 ∧ (b.read1 data).2.2.2 ≤ fin) ∧
    (∀ c, (b.read1 data).2.1 = some c → inWindow data beg fin c) := by
  have hbcopy := hb
  obtain ⟨hbeg, hfin, hlo, hhi, hbuf⟩ := hbcopy
  unfold CatStreamBuffer.read1
  cases hbufeq : b.buffer with
  | cons x t =>
    have hxmem : x ∈ b.buffer := by rw [hbufeq]; exact List.mem_cons_self x t
    refine ⟨⟨hbeg, hfin, hlo, hhi, ?_⟩, by dsimp only; simp, ?_⟩
    · intro c hc
      dsimp only at hc
      exact hbuf c (by rw [hbufeq]; exact List.mem_cons_of_mem x hc)
    · intro c hc
      dsimp only at hc
      simp only [Option.some.injEq] at hc
      exact hc ▸ hbuf x hxmem
  | nil =>
    have hu := catUnderflow_inv data beg fin b h0 h2 hb
    obtain ⟨⟨ibeg, ifin, ilo, ihi, ibuf⟩, hrange, hret⟩ := hu
    cases hreteq : (b.underflow data).ret with
    | none =>
      simp only [hreteq]
      exact ⟨⟨ibeg, ifin, ilo, ihi, ibuf⟩, by simpa using hrange,
        by simp⟩
    | some c =>
      simp only [hreteq]
      refine ⟨⟨ibeg, ifin, ilo, ihi, ?_⟩, by simpa using hrange, ?_⟩
      · intro d hd
        exact ibuf d (List.mem_of_mem_tail hd)
      · intro d hd
        simp only [Option.some.injEq] at hd
        exact hd ▸ hret c hreteq

/-- The operations the C7 guarantee quantifies over: everything except a
negative seek relative to start, which `seekpos` wrongly accepts (C6). -/
def opSeekBegNonNeg : CatOp → Bool
  | .seek off .beg => decide (0 ≤ off)
  | _ => true

theorem catRun_inv (data : List Nat) (beg fin : Int) (h0 : 0 ≤ beg)
    (h2 : fin ≤ (data.length : Int)) (ops : List CatOp)
    (b : CatStreamBuffer) (hb : catInv data beg fin b)
    (hops : ∀ op ∈ ops, opSeekBegNonNeg op = true) :
    (∀ rg ∈ (CatStreamBuffer.run data b ops).2.1,
      beg ≤ rg.1 ∧ rg.2 ≤ fin) ∧
    (∀ c ∈ (CatStreamBuffer.run data b ops).2.2,
      inWindow data beg fin c) := by
  induction ops generalizing b with
  | nil => simp [CatStreamBuffer.run]
  | cons op rest ih =>
    have hoprest : ∀ o ∈ rest, opSeekBegNonNeg o = true :=
      fun o ho => hops o (List.mem_cons_of_mem op ho)
    cases op with
    | read1 =>
      obtain ⟨hinv, hrange, hret⟩ := catRead1_inv data beg fin b h0 h2 hb
      obtain ⟨ihr, ihc⟩ := ih (b.read1 data).1 hinv hoprest
      constructor
      · intro rg hrg
        simp only [CatStreamBuffer.run] at hrg
        by_cases hlt : (b.read1 data).2.2.1 < (b.read1 data).2.2.2
        · rw [if_pos hlt] at hrg
          rcases List.mem_cons.mp hrg with hrg | hrg
          · rw [hrg]; exact hrange hlt
          · exact ihr rg hrg
        · rw [if_neg hlt] at hrg
          exact ihr rg hrg
      · intro c hc
        simp only [CatStreamBuffer.run] at hc
        cases hret1 : (b.read1 data).2.1 with
        | some x =>
          rw [hret1] at hc
          rcases List.mem_cons.mp hc with hc | hc
          · exact hc ▸ hret x hret1
          · exact ihc c hc
        | none =>
          rw [hret1] at hc
          exact ihc c hc
    | seek off dir =>
      have hdir : dir = SeekDir.beg → 0 ≤ off := by
        intro hd
        subst hd
        have := hops (.seek off .beg) (List.mem_cons_self _ _)
        simpa [opSeekBegNonNeg] using this
      have hinv := catSeekoff_inv data beg fin b off dir hb hdir
      obtain ⟨ihr, ihc⟩ := ih (b.seekoff off dir).1 hinv hoprest
      exact ⟨fun rg hrg => ihr rg hrg, fun c hc => ihc c hc⟩

theorem deflateRunReads_inv {Z : Type} (data : List Nat) (beg fin : Int)
    (h2 : fin ≤ (data.length : Int))
    (inflateStep : Z → List Nat → Z × List Nat) (k : Nat) (eng : Z)
    (b : DeflateStreamBuffer) (hlo : beg ≤ b.m_off_pos)
    (hhi : b.m_off_pos ≤ fin) (hfin : b.m_off_end = fin) :
    ∀ rg ∈ (DeflateStreamBuffer.runReads data inflateStep k eng b).2.2,
      beg ≤ rg.1 ∧ rg.2 ≤ fin := by
  induction k generalizing eng b with
  | zero => simp [DeflateStreamBuffer.runReads]
  | succ k ih =>
    intro rg hrg
    simp only [DeflateStreamBuffer.runReads] at hrg
    set r := b.underflow data inflateStep eng with hr
    have hstep : beg ≤ r.1.m_off_pos ∧ r.1.m_off_pos ≤ fin ∧
        r.1.m_off_end = fin ∧
        (r.2.2.2.1 < r.2.2.2.2 → beg ≤ r.2.2.2.1 ∧ r.2.2.2.2 ≤ fin) := by
      rw [hr]
      simp only [DeflateStreamBuffer.underflow]
      split_ifs with h1 h2a h3 h4
      · exact ⟨hlo, hhi, hfin, by dsimp only; omega⟩
      · exact ⟨hlo, hhi, hfin, by dsimp only; omega⟩
      · exact ⟨hlo, hhi, hfin, by dsimp only; omega⟩
      · exfalso
        omega
      · refine ⟨by dsimp only; omega, by dsimp only; omega, hfin, ?_⟩
        dsimp only
        intro hgt
        exact ⟨by omega, by push_cast; omega⟩
    by_cases hlt : r.2.2.2.1 < r.2.2.2.2
    · rw [if_pos hlt] at hrg
      rcases List.mem_cons.mp hrg with hrg | hrg
      · exact hrg ▸ hstep.2.2.2 hlt
      · exact ih r.2.1 r.1 hstep.1 hstep.2.1 hstep.2.2.1 rg hrg
    · rw [if_neg hlt] at hrg
      exact ih r.2.1 r.1 hstep.1 hstep.2.1 hstep.2.2.1 rg hrg

/-- Packaged C7 guarantee for the bounded stream: over any operation
sequence without negative seeks-to-start, every underlying read range
stays inside `[beg, fin)` and every byte handed to the caller is a byte
stored inside the window. -/
def CatConfined (data : List Nat) (beg fin : Int) (ops : List CatOp) : Prop :=
  (∀ rg ∈ (CatStreamBuffer.run data (CatStreamBuffer.init beg fin) ops).2.1,
    beg ≤ rg.1 ∧ rg.2 ≤ fin) ∧
  (∀ c ∈ (CatStreamBuffer.run data (CatStreamBuffer.init beg fin) ops).2.2,
    inWindow data beg fin c)

/-- Packaged C7 guarantee for the inflating stream: whatever the inflate
engine does and however many underflow calls are driven, every compressed
byte fed to the engine is read from inside `[beg, fin)`. -/
def DeflateConfined (data : List Nat) (beg fin : Int) : Prop :=
  ∀ (Z : Type) (inflateStep : Z → List Nat → Z × List Nat) (eng : Z)
    (k : Nat),
    ∀ rg ∈ (DeflateStreamBuffer.runReads data inflateStep k eng
        (DeflateStreamBuffer.init beg fin)).2.2,
      beg ≤ rg.1 ∧ rg.2 ≤ fin

/-- Packaged C7 guarantee that the window end is a clean end-of-data: any
buffer state at or past the window end with an empty get area answers a
read with the eof signal (not an error) and stays put. -/
def CatCleanEOF (data : List Nat) (fin : Int) : Prop :=
  ∀ b : CatStreamBuffer, b.m_off_end = fin → fin ≤ b.m_off_pos →
    b.buffer = [] →
    (b.read1 data).2.1 = none ∧ (b.read1 data).1.m_off_pos = b.m_off_pos

/-- C7 amended: over a window `[beg, fin)` lying inside the underlying
stream, and for every operation sequence in which seeks relative to start
are non-negative, the bounded stream reads and returns only window bytes;
the inflating stream likewise only feeds the engine window bytes; and
reaching the window end yields a clean end-of-data signal.  (The claim as
stated quantified over ALL operation sequences; a negative seek-to-start —
accepted because of the C6 defect — escapes the window, see the C7
counterexample.) -/
theorem c7_window_confinement (data : List Nat) (beg fin : Int)
    (ops : List CatOp) (h0 : 0 ≤ beg) (h1 : beg ≤ fin)
    (h2 : fin ≤ (data.length : Int))
    (hops : ∀ op ∈ ops, opSeekBegNonNeg op = true) :
    CatConfined data beg fin ops ∧ DeflateConfined data beg fin ∧
    CatCleanEOF data fin := by
  refine ⟨?_, ?_, ?_⟩
  · exact catRun_inv data beg fin h0 h2 ops (CatStreamBuffer.init beg fin)
      ⟨rfl, rfl, le_refl beg, h1, by simp [CatStreamBuffer.init]⟩ hops
  · intro Z inflateStep eng k
    exact deflateRunReads_inv data beg fin h2 inflateStep k eng
      (DeflateStreamBuffer.init beg fin) (le_refl beg) h1 rfl
  · intro b hbfin hbpos hbbuf
    unfold CatStreamBuffer.read1
    rw [hbbuf]
    have : b.underflow data =
        ⟨{ b with buffer := [] }, none, b.m_off_pos, b.m_off_pos⟩ := by
      unfold CatStreamBuffer.underflow
      rw [if_pos (by omega)]
    rw [this]
    exact ⟨rfl, rfl⟩

/-- Witness for the C7 amended theorem: window `[1, 3)` of a 4-byte
stream, driven by a read, a relative seek and another read. -/
theorem c7_window_confinement_witness :
    CatConfined [5, 6, 7, 8] 1 3
      [CatOp.read1, CatOp.seek 1 SeekDir.beg, CatOp.read1] ∧
    DeflateConfined [5, 6, 7, 8] 1 3 ∧
    CatCleanEOF [5, 6, 7, 8] 3 :=
  c7_window_confinement [5, 6, 7, 8] 1 3
    [CatOp.read1, CatOp.seek 1 SeekDir.beg, CatOp.read1]
    (by decide) (by decide) (by decide) (by decide)
